import Mathlib

/-!
Verification of the circularBuffer library (LalitK-Space/circularBuffer).

The C sources (`Src/circularBuffer.c`, `Inc/circularBuffer.h`) implement a
fixed-capacity circular byte buffer over a 50-byte array with two indices
`front` and `rear`.  We embed the state as a structure whose `data` field is a
total function `Nat → Nat` (only indices `< C_BUFFER_SIZE` are ever touched by
the code), and `front`/`rear` as natural numbers.  All the C index arithmetic
is on `uint32_t` values that stay far below `2^32` whenever the indices are in
range `[0, C_BUFFER_SIZE)`, so plain `Nat` arithmetic with `% C_BUFFER_SIZE`
is an exact model on those states.
-/

namespace CircularBuffer

/-- `#define C_BUFFER_SIZE (50)` from `circularBuffer.h`. -/
def C_BUFFER_SIZE : Nat := 50

/-- The `cBuffer_t` struct: `uint8_t data[C_BUFFER_SIZE]; uint32_t front; uint32_t rear;`.
Bytes are modelled as `Nat`; only indices below `C_BUFFER_SIZE` are ever used. -/
structure CBuffer where
  data : Nat → Nat
  front : Nat
  rear : Nat

/-- The `cBufferStatus_t` enum from `circularBuffer.h`. -/
inductive CBufferStatus where
  | CBUFFER_SUCCESS
  | CBUFFER_EMPTY
  | CBUFFER_FULL
  | CBUFFER_OVERFLOW
  | CBUFFER_FAIL
  | CBUFFER_INVALID_STRING
  deriving DecidableEq, Repr

open CBufferStatus

/-- `cBuffer_Init`: zeroes the data array and sets `front = rear = 0`.
(The C function mutates a caller-provided struct; the model returns the
resulting state.) -/
def cBuffer_Init : CBuffer :=
  { data := fun _ => 0, front := 0, rear := 0 }

/-- `cBuffer_Clean`: reinitializes the buffer by calling `cBuffer_Init`. -/
def cBuffer_Clean (_ : CBuffer) : CBuffer :=
  cBuffer_Init

/-- `cBuffer_add_char`: if the buffer is not full (`(rear + 1) % C_BUFFER_SIZE
== front` is the full condition), increments `rear` modulo the size, writes
the byte at the new `rear`, and returns `CBUFFER_SUCCESS`; otherwise returns
`CBUFFER_FULL` with the state untouched. -/
def cBuffer_add_char (b : CBuffer) (d : Nat) : CBuffer × CBufferStatus :=
  if ¬ ((b.rear + 1) % C_BUFFER_SIZE = b.front) then
    let r := (b.rear + 1) % C_BUFFER_SIZE
    ({ data := fun i => if i = r then d else b.data i, front := b.front, rear := r },
     CBUFFER_SUCCESS)
  else
    (b, CBUFFER_FULL)

/-- `cBuffer_read_char`: if the buffer is not empty (`front == rear` is the
empty condition), increments `front` modulo the size, reads the byte at the
new `front` into `*readChar`, and returns `CBUFFER_SUCCESS`; otherwise
returns `CBUFFER_EMPTY` leaving `*readChar` unwritten (modelled as `none`). -/
def cBuffer_read_char (b : CBuffer) : CBuffer × Option Nat × CBufferStatus :=
  if ¬ (b.front = b.rear) then
    let f := (b.front + 1) % C_BUFFER_SIZE
    ({ data := b.data, front := f, rear := b.rear }, some (b.data f), CBUFFER_SUCCESS)
  else
    (b, none, CBUFFER_EMPTY)

/-- `cBuffer_get_usedSpace`:
`(rear >= front) ? (rear - front) : (C_BUFFER_SIZE - (front - rear))`. -/
def cBuffer_get_usedSpace (b : CBuffer) : Nat :=
  if b.rear ≥ b.front then b.rear - b.front
  else C_BUFFER_SIZE - (b.front - b.rear)

/-- `cBuffer_get_availableSpace`:
`(front > rear) ? (front - rear - 1) : (C_BUFFER_SIZE - (rear - front + 1))`. -/
def cBuffer_get_availableSpace (b : CBuffer) : Nat :=
  if b.front > b.rear then b.front - b.rear - 1
  else C_BUFFER_SIZE - (b.rear - b.front + 1)

/-- Iterated `cBuffer_add_char`: final state together with the list of statuses
returned by the successive calls (the loop bodies of `cBuffer_add_string`
discard these statuses; tests of the capacity bound observe them). -/
def addCharsSt (b : CBuffer) : List Nat → CBuffer × List CBufferStatus
  | [] => (b, [])
  | d :: ds =>
    let s := cBuffer_add_char b d
    let rest := addCharsSt s.1 ds
    (rest.1, s.2 :: rest.2)

/-- `cBuffer_add_string`: computes `strlen` of the argument (the argument is
modelled as the list of the C string's bytes before its terminator, so
`strlen` is the list length), returns `CBUFFER_OVERFLOW` when
`availableSpace < strlen + 1`, and otherwise pushes every byte of the string
followed by a `'\0'` byte via `cBuffer_add_char` and returns
`CBUFFER_SUCCESS`. -/
def cBuffer_add_string (b : CBuffer) (stringData : List Nat) : CBuffer × CBufferStatus :=
  let str_length := stringData.length
  let buffer_spaceAvailable := cBuffer_get_availableSpace b
  if buffer_spaceAvailable < str_length + 1 then
    (b, CBUFFER_OVERFLOW)
  else
    ((addCharsSt b (stringData ++ [0])).1, CBUFFER_SUCCESS)

/-- `cBuffer_peek`: fails with `CBUFFER_FAIL` when `peekIndex >= usedSpace`,
otherwise reads `data[(front + peekIndex + 1) % C_BUFFER_SIZE]` into
`*peekResult` and returns `CBUFFER_SUCCESS`.  The C function takes the buffer
by `const` pointer and performs no writes to it, so the model returns no
buffer state. -/
def cBuffer_peek (b : CBuffer) (peekIndex : Nat) : Option Nat × CBufferStatus :=
  let data_inSourceBuffer := cBuffer_get_usedSpace b
  if peekIndex ≥ data_inSourceBuffer then
    (none, CBUFFER_FAIL)
  else
    (some (b.data ((b.front + peekIndex + 1) % C_BUFFER_SIZE)), CBUFFER_SUCCESS)

/-- The copy loop of `cBuffer_read_string`: for `n` iterations starting at
destination index `i`, call `cBuffer_read_char(cBuffer, &DestinationBuffer[i])`.
A failed read leaves the destination cell unwritten, exactly as in C. -/
def readCharsInto (b : CBuffer) (dest : Nat → Nat) (i : Nat) : Nat → CBuffer × (Nat → Nat)
  | 0 => (b, dest)
  | n + 1 =>
    let r := cBuffer_read_char b
    let dest2 : Nat → Nat :=
      match r.2.1 with
      | some v => fun j => if j = i then v else dest j
      | none => dest
    readCharsInto r.1 dest2 (i + 1) n

/-- `cBuffer_read_string`: fails with `CBUFFER_FAIL` when the buffer holds
fewer than `str_length` bytes; otherwise pops `str_length` bytes via repeated
`cBuffer_read_char` into `DestinationBuffer[0..str_length)`, writes a `'\0'`
terminator at `DestinationBuffer[str_length]`, and returns
`CBUFFER_SUCCESS`. -/
def cBuffer_read_string (b : CBuffer) (str_length : Nat) (DestinationBuffer : Nat → Nat) :
    CBuffer × (Nat → Nat) × CBufferStatus :=
  let data_inSourceBuffer := cBuffer_get_usedSpace b
  if data_inSourceBuffer < str_length then
    (b, DestinationBuffer, CBUFFER_FAIL)
  else
    let r := readCharsInto b DestinationBuffer 0 str_length
    (r.1, fun j => if j = str_length then 0 else r.2 j, CBUFFER_SUCCESS)

/-! ### Abstraction: well-formed states and logical contents -/

/-- A buffer state whose indices are in range `[0, C_BUFFER_SIZE)` — the
states reachable from `cBuffer_Init` (which only ever assigns
`x % C_BUFFER_SIZE` or `0` to the indices). -/
def WF (b : CBuffer) : Prop := b.front < C_BUFFER_SIZE ∧ b.rear < C_BUFFER_SIZE

instance (b : CBuffer) : Decidable (WF b) := by
  unfold WF; infer_instance

/-- The logical contents of the buffer, oldest byte first: slot `i` lives at
physical index `(front + i + 1) % C_BUFFER_SIZE`. -/
def contents (b : CBuffer) : List Nat :=
  (List.range (cBuffer_get_usedSpace b)).map
    (fun i => b.data ((b.front + i + 1) % C_BUFFER_SIZE))

theorem contents_length (b : CBuffer) : (contents b).length = cBuffer_get_usedSpace b := by
  simp [contents]

theorem usedSpace_le (b : CBuffer) (h : WF b) :
    cBuffer_get_usedSpace b ≤ C_BUFFER_SIZE - 1 := by
  obtain ⟨h1, h2⟩ := h
  unfold cBuffer_get_usedSpace C_BUFFER_SIZE at *
  split <;> omega

theorem avail_eq (b : CBuffer) (h : WF b) :
    cBuffer_get_availableSpace b = C_BUFFER_SIZE - 1 - cBuffer_get_usedSpace b := by
  obtain ⟨h1, h2⟩ := h
  unfold cBuffer_get_usedSpace cBuffer_get_availableSpace C_BUFFER_SIZE at *
  split <;> split <;> omega

/-- On well-formed states, the full test of `cBuffer_add_char` triggers
exactly when the used space is `C_BUFFER_SIZE - 1`. -/
theorem full_iff (b : CBuffer) (h : WF b) :
    (b.rear + 1) % C_BUFFER_SIZE = b.front ↔
      cBuffer_get_usedSpace b = C_BUFFER_SIZE - 1 := by
  obtain ⟨h1, h2⟩ := h
  unfold cBuffer_get_usedSpace C_BUFFER_SIZE at *
  split <;> omega

/-- On well-formed states, the empty test of `cBuffer_read_char` triggers
exactly when the used space is `0`. -/
theorem empty_iff (b : CBuffer) (h : WF b) :
    b.front = b.rear ↔ cBuffer_get_usedSpace b = 0 := by
  obtain ⟨h1, h2⟩ := h
  unfold cBuffer_get_usedSpace C_BUFFER_SIZE at *
  split <;> omega

/-- The physical slot of logical index `usedSpace` is the slot
`cBuffer_add_char` would write next. -/
theorem phys_used (b : CBuffer) (h : WF b) :
    (b.front + cBuffer_get_usedSpace b + 1) % C_BUFFER_SIZE =
      (b.rear + 1) % C_BUFFER_SIZE := by
  obtain ⟨h1, h2⟩ := h
  unfold cBuffer_get_usedSpace C_BUFFER_SIZE at *
  split <;> omega

/-- Distinct logical indices below `C_BUFFER_SIZE` land on distinct physical
slots. -/
theorem phys_inj (f i j : Nat) (hij : i < j) (hj : j ≤ C_BUFFER_SIZE - 1) :
    (f + i + 1) % C_BUFFER_SIZE ≠ (f + j + 1) % C_BUFFER_SIZE := by
  unfold C_BUFFER_SIZE at *
  omega

/-- A non-full `cBuffer_add_char` succeeds, preserves well-formedness and
`front`, and appends the byte to the logical contents. -/
theorem add_char_ok (b : CBuffer) (d : Nat) (h : WF b)
    (hs : cBuffer_get_usedSpace b < C_BUFFER_SIZE - 1) :
    (cBuffer_add_char b d).2 = CBUFFER_SUCCESS ∧
    WF (cBuffer_add_char b d).1 ∧
    (cBuffer_add_char b d).1.front = b.front ∧
    contents (cBuffer_add_char b d).1 = contents b ++ [d] := by
  have hnf : ¬ ((b.rear + 1) % C_BUFFER_SIZE = b.front) := by
    rw [full_iff b h]; omega
  have hb' : cBuffer_add_char b d =
      ({ data := fun i => if i = (b.rear + 1) % C_BUFFER_SIZE then d else b.data i,
         front := b.front, rear := (b.rear + 1) % C_BUFFER_SIZE },
       CBUFFER_SUCCESS) := by
    simp [cBuffer_add_char, hnf]
  rw [hb']
  have hrlt : (b.rear + 1) % C_BUFFER_SIZE < C_BUFFER_SIZE :=
    Nat.mod_lt _ (by unfold C_BUFFER_SIZE; omega)
  have hu : cBuffer_get_usedSpace
      ({ data := fun i => if i = (b.rear + 1) % C_BUFFER_SIZE then d else b.data i,
         front := b.front, rear := (b.rear + 1) % C_BUFFER_SIZE } : CBuffer) =
      cBuffer_get_usedSpace b + 1 := by
    obtain ⟨h1, h2⟩ := h
    unfold cBuffer_get_usedSpace C_BUFFER_SIZE at *
    simp only
    split <;> split <;> omega
  refine ⟨rfl, ⟨h.1, hrlt⟩, rfl, ?_⟩
  unfold contents
  rw [hu]
  simp only [List.range_succ, List.map_append, List.map_cons, List.map_nil]
  congr 1
  · apply List.map_congr_left
    intro i hi
    rw [List.mem_range] at hi
    have hne : (b.front + i + 1) % C_BUFFER_SIZE ≠ (b.rear + 1) % C_BUFFER_SIZE := by
      rw [← phys_used b ⟨h.1, h.2⟩]
      exact phys_inj b.front i (cBuffer_get_usedSpace b) hi (by omega)
    simp only [hne, if_false]
  · rw [phys_used b ⟨h.1, h.2⟩]
    simp

/-- A non-empty `cBuffer_read_char` succeeds, preserves well-formedness,
`rear` and the data array, returns the head of the logical contents, and
removes it. -/
theorem read_char_ok (b : CBuffer) (h : WF b)
    (hs : 0 < cBuffer_get_usedSpace b) :
    (cBuffer_read_char b).2.2 = CBUFFER_SUCCESS ∧
    WF (cBuffer_read_char b).1 ∧
    (cBuffer_read_char b).1.rear = b.rear ∧
    (cBuffer_read_char b).1.data = b.data ∧
    (cBuffer_read_char b).2.1 = some ((contents b).headI) ∧
    contents (cBuffer_read_char b).1 = (contents b).tail := by
  have hne : ¬ (b.front = b.rear) := by
    intro hc
    rw [empty_iff b h] at hc
    omega
  have hb' : cBuffer_read_char b =
      ({ data := b.data, front := (b.front + 1) % C_BUFFER_SIZE, rear := b.rear },
       some (b.data ((b.front + 1) % C_BUFFER_SIZE)), CBUFFER_SUCCESS) := by
    simp [cBuffer_read_char, hne]
  rw [hb']
  have hflt : (b.front + 1) % C_BUFFER_SIZE < C_BUFFER_SIZE :=
    Nat.mod_lt _ (by unfold C_BUFFER_SIZE; omega)
  have hu : cBuffer_get_usedSpace
      ({ data := b.data, front := (b.front + 1) % C_BUFFER_SIZE, rear := b.rear } : CBuffer) =
      cBuffer_get_usedSpace b - 1 := by
    obtain ⟨h1, h2⟩ := h
    unfold cBuffer_get_usedSpace C_BUFFER_SIZE at *
    simp only
    split <;> split <;> omega
  obtain ⟨k, hk⟩ : ∃ k, cBuffer_get_usedSpace b = k + 1 :=
    ⟨cBuffer_get_usedSpace b - 1, by omega⟩
  have hcont : contents b =
      b.data ((b.front + 1) % C_BUFFER_SIZE) ::
        (List.range k).map (fun i => b.data ((b.front + i + 2) % C_BUFFER_SIZE)) := by
    unfold contents
    rw [hk, List.range_succ_eq_map]
    simp only [List.map_cons, List.map_map]
    congr 1
  refine ⟨rfl, ⟨hflt, h.2⟩, rfl, rfl, ?_, ?_⟩
  · rw [hcont]; rfl
  · rw [hcont]
    unfold contents
    rw [hu, hk]
    simp only [Nat.add_sub_cancel, List.tail_cons]
    apply List.map_congr_left
    intro i _
    show b.data (((b.front + 1) % C_BUFFER_SIZE + i + 1) % C_BUFFER_SIZE) =
      b.data ((b.front + i + 2) % C_BUFFER_SIZE)
    congr 1
    conv_lhs => rw [Nat.add_assoc, Nat.mod_add_mod]
    congr 1
    omega

/-- Iterating `cBuffer_add_char` while enough space remains: every call
succeeds, `front` is preserved, and the bytes are appended in order. -/
theorem addCharsSt_ok (ds : List Nat) (b : CBuffer) (h : WF b)
    (hs : cBuffer_get_usedSpace b + ds.length ≤ C_BUFFER_SIZE - 1) :
    (addCharsSt b ds).2 = List.replicate ds.length CBUFFER_SUCCESS ∧
    WF (addCharsSt b ds).1 ∧
    (addCharsSt b ds).1.front = b.front ∧
    contents (addCharsSt b ds).1 = contents b ++ ds := by
  induction ds generalizing b with
  | nil => simpa [addCharsSt] using h
  | cons d ds ih =>
    simp only [List.length_cons] at hs
    obtain ⟨hst, hwf, hfr, hc⟩ := add_char_ok b d h (by omega)
    have hu1 : cBuffer_get_usedSpace (cBuffer_add_char b d).1 =
        cBuffer_get_usedSpace b + 1 := by
      rw [← contents_length, hc, List.length_append, contents_length]
      rfl
    obtain ⟨ihst, ihwf, ihfr, ihc⟩ :=
      ih (cBuffer_add_char b d).1 hwf (by rw [hu1]; omega)
    simp only [addCharsSt]
    refine ⟨?_, ihwf, ?_, ?_⟩
    · rw [List.length_cons, List.replicate_succ, hst, ihst]
    · rw [ihfr, hfr]
    · rw [ihc, hc, List.append_assoc]
      rfl

/-- Iterating `cBuffer_read_char`: final state together with the list of
values written through `*readChar` and the list of returned statuses. -/
def readCharsSt (b : CBuffer) : Nat → CBuffer × List (Option Nat) × List CBufferStatus
  | 0 => (b, [], [])
  | n + 1 =>
    let r := cBuffer_read_char b
    let rest := readCharsSt r.1 n
    (rest.1, r.2.1 :: rest.2.1, r.2.2 :: rest.2.2)

/-- Iterating `cBuffer_read_char` while enough bytes are stored: every call
succeeds, and the successive calls return the first `n` logical bytes in
order, leaving the rest. -/
theorem readCharsSt_ok (n : Nat) (b : CBuffer) (h : WF b)
    (hs : n ≤ cBuffer_get_usedSpace b) :
    (readCharsSt b n).2.1 = ((contents b).take n).map some ∧
    (readCharsSt b n).2.2 = List.replicate n CBUFFER_SUCCESS ∧
    WF (readCharsSt b n).1 ∧
    (readCharsSt b n).1.rear = b.rear ∧
    (readCharsSt b n).1.data = b.data ∧
    contents (readCharsSt b n).1 = (contents b).drop n := by
  induction n generalizing b with
  | zero => simpa [readCharsSt] using h
  | succ n ih =>
    obtain ⟨hst, hwf, hre, hdat, hval, hc⟩ := read_char_ok b h (by omega)
    obtain ⟨x, xs, hxs⟩ : ∃ x xs, contents b = x :: xs := by
      rcases hcb : contents b with _ | ⟨x, xs⟩
      · exfalso
        have := contents_length b
        rw [hcb] at this
        simp at this
        omega
      · exact ⟨x, xs, rfl⟩
    have hu1 : cBuffer_get_usedSpace (cBuffer_read_char b).1 =
        cBuffer_get_usedSpace b - 1 := by
      rw [← contents_length, hc, List.length_tail, contents_length]
    obtain ⟨ihval, ihst, ihwf, ihre, ihdat, ihc⟩ :=
      ih (cBuffer_read_char b).1 hwf (by rw [hu1]; omega)
    simp only [readCharsSt]
    refine ⟨?_, ?_, ihwf, ?_, ?_, ?_⟩
    · rw [ihval, hval, hc, hxs]
      simp
    · rw [List.replicate_succ, hst, ihst]
    · rw [ihre, hre]
    · rw [ihdat, hdat]
    · rw [ihc, hc, hxs]
      simp

/-- The copy loop of `cBuffer_read_string`, run while enough bytes are
stored: the destination cells `i0 .. i0+n-1` receive the first `n` logical
bytes in order, every other destination cell is untouched, and the first `n`
logical bytes are removed from the buffer. -/
theorem readCharsInto_ok (n : Nat) (b : CBuffer) (dest : Nat → Nat) (i0 : Nat)
    (h : WF b) (hs : n ≤ cBuffer_get_usedSpace b) :
    WF (readCharsInto b dest i0 n).1 ∧
    (readCharsInto b dest i0 n).1.rear = b.rear ∧
    (readCharsInto b dest i0 n).1.data = b.data ∧
    contents (readCharsInto b dest i0 n).1 = (contents b).drop n ∧
    (∀ k, k < n → (readCharsInto b dest i0 n).2 (i0 + k) = (contents b).getD k 0) ∧
    (∀ j, (∀ k, k < n → j ≠ i0 + k) → (readCharsInto b dest i0 n).2 j = dest j) := by
  induction n generalizing b dest i0 with
  | zero =>
    refine ⟨h, rfl, rfl, by simp [readCharsInto], ?_, ?_⟩
    · intro k hk; omega
    · intro j _; rfl
  | succ n ih =>
    obtain ⟨hst, hwf, hre, hdat, hval, hc⟩ := read_char_ok b h (by omega)
    obtain ⟨x, xs, hxs⟩ : ∃ x xs, contents b = x :: xs := by
      rcases hcb : contents b with _ | ⟨x, xs⟩
      · exfalso
        have := contents_length b
        rw [hcb] at this
        simp at this
        omega
      · exact ⟨x, xs, rfl⟩
    have hhead : (cBuffer_read_char b).2.1 = some x := by
      rw [hval, hxs]; rfl
    have hstep : readCharsInto b dest i0 (n + 1) =
        readCharsInto (cBuffer_read_char b).1
          (fun j => if j = i0 then x else dest j) (i0 + 1) n := by
      simp only [readCharsInto, hhead]
    have hu1 : cBuffer_get_usedSpace (cBuffer_read_char b).1 =
        cBuffer_get_usedSpace b - 1 := by
      rw [← contents_length, hc, List.length_tail, contents_length]
    obtain ⟨ihwf, ihre, ihdat, ihc, ihval, ihfr⟩ :=
      ih (cBuffer_read_char b).1 (fun j => if j = i0 then x else dest j) (i0 + 1)
        hwf (by rw [hu1]; omega)
    rw [hstep]
    refine ⟨ihwf, ?_, ?_, ?_, ?_, ?_⟩
    · rw [ihre, hre]
    · rw [ihdat, hdat]
    · rw [ihc, hc, hxs]
      simp
    · intro k hk
      match k with
      | 0 =>
        rw [ihfr (i0 + 0) (by intro k hk2; omega)]
        simp [hxs]
      | k' + 1 =>
        have : i0 + (k' + 1) = (i0 + 1) + k' := by omega
        rw [this, ihval k' (by omega), hc, hxs]
        simp
    · intro j hj
      rw [ihfr j (by intro k hk2; have := hj (k + 1) (by omega); omega)]
      have : j ≠ i0 := by have := hj 0 (by omega); omega
      simp [this]

/-- `cBuffer_add_char` on a well-formed buffer whose used space is already
`C_BUFFER_SIZE - 1` returns `CBUFFER_FULL` and leaves the state unchanged. -/
theorem add_char_full (b : CBuffer) (d : Nat) (h : WF b)
    (hs : cBuffer_get_usedSpace b = C_BUFFER_SIZE - 1) :
    cBuffer_add_char b d = (b, CBUFFER_FULL) := by
  have hc : (b.rear + 1) % C_BUFFER_SIZE = b.front := (full_iff b h).mpr hs
  simp [cBuffer_add_char, hc]

theorem contents_init : contents cBuffer_Init = [] := rfl

/-! ### The claims -/

/-- C1 — Conservation of space accounting: for every buffer state with
`front` and `rear` in `[0, C_BUFFER_SIZE)`,
`cBuffer_get_usedSpace b + cBuffer_get_availableSpace b = C_BUFFER_SIZE - 1`
(that is, 49 for the default capacity of 50). -/
theorem space_conservation (b : CBuffer) (h : WF b) :
    cBuffer_get_usedSpace b + cBuffer_get_availableSpace b = C_BUFFER_SIZE - 1 := by
  have h1 := avail_eq b h
  have h2 := usedSpace_le b h
  omega

theorem space_conservation_witness :
    cBuffer_get_usedSpace cBuffer_Init + cBuffer_get_availableSpace cBuffer_Init =
      C_BUFFER_SIZE - 1 :=
  space_conservation cBuffer_Init (by decide)

/-- C2 — FIFO order: for every list of at most `C_BUFFER_SIZE - 1` bytes,
pushing them one by one into a freshly reset buffer succeeds on every call,
and then reading the same number of times returns exactly those bytes in
order, every read succeeding. -/
theorem fifo_order (bs : List Nat) (h : bs.length ≤ C_BUFFER_SIZE - 1) :
    (addCharsSt cBuffer_Init bs).2 = List.replicate bs.length CBUFFER_SUCCESS ∧
    (readCharsSt (addCharsSt cBuffer_Init bs).1 bs.length).2.1 = bs.map some ∧
    (readCharsSt (addCharsSt cBuffer_Init bs).1 bs.length).2.2 =
      List.replicate bs.length CBUFFER_SUCCESS := by
  have h0 : WF cBuffer_Init := by decide
  obtain ⟨hst, hwf, hfr, hc⟩ := addCharsSt_ok bs cBuffer_Init h0 (by
    have : cBuffer_get_usedSpace cBuffer_Init = 0 := rfl
    omega)
  have hcb : contents (addCharsSt cBuffer_Init bs).1 = bs := by
    rw [hc, contents_init, List.nil_append]
  have hub : cBuffer_get_usedSpace (addCharsSt cBuffer_Init bs).1 = bs.length := by
    rw [← contents_length, hcb]
  obtain ⟨hval, hst2, _, _, _, _⟩ :=
    readCharsSt_ok bs.length (addCharsSt cBuffer_Init bs).1 hwf (by rw [hub])
  refine ⟨hst, ?_, hst2⟩
  rw [hval, hcb, List.take_length]

theorem fifo_order_witness :
    (addCharsSt cBuffer_Init [3, 1, 4]).2 =
      List.replicate ([3, 1, 4] : List Nat).length CBUFFER_SUCCESS ∧
    (readCharsSt (addCharsSt cBuffer_Init [3, 1, 4]).1
      ([3, 1, 4] : List Nat).length).2.1 = ([3, 1, 4] : List Nat).map some ∧
    (readCharsSt (addCharsSt cBuffer_Init [3, 1, 4]).1
      ([3, 1, 4] : List Nat).length).2.2 =
      List.replicate ([3, 1, 4] : List Nat).length CBUFFER_SUCCESS :=
  fifo_order [3, 1, 4] (by decide)

/-- C3 — Capacity bound: from a freshly reset buffer, any
`C_BUFFER_SIZE - 1` consecutive `cBuffer_add_char` calls all return
`CBUFFER_SUCCESS`, and any next call returns `CBUFFER_FULL`. -/
theorem capacity_bound (bs : List Nat) (h : bs.length = C_BUFFER_SIZE - 1) :
    (addCharsSt cBuffer_Init bs).2 =
      List.replicate (C_BUFFER_SIZE - 1) CBUFFER_SUCCESS ∧
    ∀ d, cBuffer_add_char (addCharsSt cBuffer_Init bs).1 d =
      ((addCharsSt cBuffer_Init bs).1, CBUFFER_FULL) := by
  have h0 : WF cBuffer_Init := by decide
  obtain ⟨hst, hwf, hfr, hc⟩ := addCharsSt_ok bs cBuffer_Init h0 (by
    have : cBuffer_get_usedSpace cBuffer_Init = 0 := rfl
    omega)
  have hub : cBuffer_get_usedSpace (addCharsSt cBuffer_Init bs).1 = C_BUFFER_SIZE - 1 := by
    rw [← contents_length, hc, contents_init, List.nil_append, h]
  refine ⟨by rw [hst, h], ?_⟩
  intro d
  exact add_char_full (addCharsSt cBuffer_Init bs).1 d hwf hub

theorem capacity_bound_witness :
    (addCharsSt cBuffer_Init (List.replicate 49 7)).2 =
      List.replicate (C_BUFFER_SIZE - 1) CBUFFER_SUCCESS ∧
    cBuffer_add_char (addCharsSt cBuffer_Init (List.replicate 49 7)).1 5 =
      ((addCharsSt cBuffer_Init (List.replicate 49 7)).1, CBUFFER_FULL) := by
  have h := capacity_bound (List.replicate 49 7) (by decide)
  exact ⟨h.1, h.2 5⟩

/-- C4 — String-push overflow atomicity: on a well-formed buffer,
`cBuffer_add_string` returns `CBUFFER_OVERFLOW` with the whole state (front,
rear and data) unchanged when `availableSpace < strlen + 1`, and otherwise
returns `CBUFFER_SUCCESS` having appended the string's bytes in order
followed by a `0` terminator. -/
theorem add_string_overflow_atomic (b : CBuffer) (s : List Nat) (h : WF b) :
    (cBuffer_get_availableSpace b < s.length + 1 →
      cBuffer_add_string b s = (b, CBUFFER_OVERFLOW)) ∧
    (s.length + 1 ≤ cBuffer_get_availableSpace b →
      (cBuffer_add_string b s).2 = CBUFFER_SUCCESS ∧
      WF (cBuffer_add_string b s).1 ∧
      (cBuffer_add_string b s).1.front = b.front ∧
      contents (cBuffer_add_string b s).1 = contents b ++ s ++ [0]) := by
  constructor
  · intro hlt
    simp [cBuffer_add_string, hlt]
  · intro hge
    have hng : ¬ (cBuffer_get_availableSpace b < s.length + 1) := by omega
    have hcap : cBuffer_get_usedSpace b + (s ++ [0]).length ≤ C_BUFFER_SIZE - 1 := by
      have h1 := avail_eq b h
      have h2 := usedSpace_le b h
      simp only [List.length_append, List.length_cons, List.length_nil]
      omega
    obtain ⟨hst, hwf, hfr, hc⟩ := addCharsSt_ok (s ++ [0]) b h hcap
    have hb' : cBuffer_add_string b s = ((addCharsSt b (s ++ [0])).1, CBUFFER_SUCCESS) := by
      simp [cBuffer_add_string, hng]
    rw [hb']
    exact ⟨rfl, hwf, hfr, by rw [hc, List.append_assoc]⟩

theorem add_string_overflow_atomic_witness :
    cBuffer_add_string cBuffer_Init (List.replicate 49 1) =
      (cBuffer_Init, CBUFFER_OVERFLOW) ∧
    (cBuffer_add_string cBuffer_Init [1, 2]).2 = CBUFFER_SUCCESS := by
  have h1 := (add_string_overflow_atomic cBuffer_Init (List.replicate 49 1) (by decide)).1
    (by decide)
  have h2 := (add_string_overflow_atomic cBuffer_Init [1, 2] (by decide)).2 (by decide)
  exact ⟨h1, h2.1⟩

/-- The byte values of the C string literal `"hello"`. -/
def helloBytes : List Nat := [104, 101, 108, 108, 111]

/-- C5, counterexample — after `cBuffer_add_string "hello"` on a fresh buffer
and `cBuffer_read_string` with `str_length = 5`, the destination does hold
`'h','e','l','l','o',0` and both calls succeed, but the buffer is NOT left
empty: the pushed `0` terminator is still stored, so the claimed conjunction
(ending in `usedSpace = 0`) is false. -/
theorem string_round_trip_cex :
    ¬ ((cBuffer_add_string cBuffer_Init helloBytes).2 = CBUFFER_SUCCESS ∧
       (cBuffer_read_string (cBuffer_add_string cBuffer_Init helloBytes).1 5
         (fun _ => 0)).2.2 = CBUFFER_SUCCESS ∧
       (cBuffer_read_string (cBuffer_add_string cBuffer_Init helloBytes).1 5
         (fun _ => 0)).2.1 0 = 104 ∧
       (cBuffer_read_string (cBuffer_add_string cBuffer_Init helloBytes).1 5
         (fun _ => 0)).2.1 1 = 101 ∧
       (cBuffer_read_string (cBuffer_add_string cBuffer_Init helloBytes).1 5
         (fun _ => 0)).2.1 2 = 108 ∧
       (cBuffer_read_string (cBuffer_add_string cBuffer_Init helloBytes).1 5
         (fun _ => 0)).2.1 3 = 108 ∧
       (cBuffer_read_string (cBuffer_add_string cBuffer_Init helloBytes).1 5
         (fun _ => 0)).2.1 4 = 111 ∧
       (cBuffer_read_string (cBuffer_add_string cBuffer_Init helloBytes).1 5
         (fun _ => 0)).2.1 5 = 0 ∧
       cBuffer_get_usedSpace
         (cBuffer_read_string (cBuffer_add_string cBuffer_Init helloBytes).1 5
           (fun _ => 0)).1 = 0) := by
  decide

/-- C5, amended — string round-trip: on a fresh capacity-50 buffer,
`cBuffer_add_string "hello"` then `cBuffer_read_string` with
`str_length = 5` both return `CBUFFER_SUCCESS`, the destination holds
`'h','e','l','l','o',0`, and the buffer is left holding exactly one byte —
the pushed `0` terminator (`usedSpace = 1`, not `0`). -/
theorem string_round_trip_amended :
    (cBuffer_add_string cBuffer_Init helloBytes).2 = CBUFFER_SUCCESS ∧
    (cBuffer_read_string (cBuffer_add_string cBuffer_Init helloBytes).1 5
      (fun _ => 0)).2.2 = CBUFFER_SUCCESS ∧
    (cBuffer_read_string (cBuffer_add_string cBuffer_Init helloBytes).1 5
      (fun _ => 0)).2.1 0 = 104 ∧
    (cBuffer_read_string (cBuffer_add_string cBuffer_Init helloBytes).1 5
      (fun _ => 0)).2.1 1 = 101 ∧
    (cBuffer_read_string (cBuffer_add_string cBuffer_Init helloBytes).1 5
      (fun _ => 0)).2.1 2 = 108 ∧
    (cBuffer_read_string (cBuffer_add_string cBuffer_Init helloBytes).1 5
      (fun _ => 0)).2.1 3 = 108 ∧
    (cBuffer_read_string (cBuffer_add_string cBuffer_Init helloBytes).1 5
      (fun _ => 0)).2.1 4 = 111 ∧
    (cBuffer_read_string (cBuffer_add_string cBuffer_Init helloBytes).1 5
      (fun _ => 0)).2.1 5 = 0 ∧
    cBuffer_get_usedSpace
      (cBuffer_read_string (cBuffer_add_string cBuffer_Init helloBytes).1 5
        (fun _ => 0)).1 = 1 := by
  decide

/-- C6 — Peek correctness: on a well-formed buffer, `cBuffer_peek` returns
`CBUFFER_FAIL` exactly when the index is at least the used space; otherwise
it returns `CBUFFER_SUCCESS` together with
`data[(front + index + 1) % C_BUFFER_SIZE]` (the model takes the buffer by
value and returns no state, mirroring the `const`-qualified C function,
which never writes to the buffer); and a successful `cBuffer_peek` at index
`0` returns exactly the byte the next `cBuffer_read_char` would return. -/
theorem peek_spec (b : CBuffer) (i : Nat) (h : WF b) :
    ((cBuffer_peek b i).2 = CBUFFER_FAIL ↔ cBuffer_get_usedSpace b ≤ i) ∧
    (i < cBuffer_get_usedSpace b →
      cBuffer_peek b i =
        (some (b.data ((b.front + i + 1) % C_BUFFER_SIZE)), CBUFFER_SUCCESS)) ∧
    ((cBuffer_peek b 0).2 = CBUFFER_SUCCESS →
      (cBuffer_peek b 0).1 = (cBuffer_read_char b).2.1) := by
  refine ⟨?_, ?_, ?_⟩
  · simp only [cBuffer_peek]
    split
    · simpa using by omega
    · simpa using by omega
  · intro hlt
    have hng : ¬ (i ≥ cBuffer_get_usedSpace b) := by omega
    simp [cBuffer_peek, hng]
  · intro hsucc
    have hpos : 0 < cBuffer_get_usedSpace b := by
      by_contra hz
      have hge : 0 ≥ cBuffer_get_usedSpace b := by omega
      have : (cBuffer_peek b 0).2 = CBUFFER_FAIL := by simp [cBuffer_peek, hge]
      rw [hsucc] at this
      exact CBufferStatus.noConfusion this
    have hne : ¬ (b.front = b.rear) := by
      intro hc
      rw [empty_iff b h] at hc
      omega
    have hng : ¬ ((0 : Nat) ≥ cBuffer_get_usedSpace b) := by omega
    simp [cBuffer_peek, cBuffer_read_char, hng, hne]

theorem peek_spec_witness :
    cBuffer_peek (cBuffer_add_char cBuffer_Init 7).1 0 =
      (some ((cBuffer_add_char cBuffer_Init 7).1.data
        (((cBuffer_add_char cBuffer_Init 7).1.front + 0 + 1) % C_BUFFER_SIZE)),
       CBUFFER_SUCCESS) ∧
    (cBuffer_peek (cBuffer_add_char cBuffer_Init 7).1 0).1 =
      (cBuffer_read_char (cBuffer_add_char cBuffer_Init 7).1).2.1 := by
  have h := peek_spec (cBuffer_add_char cBuffer_Init 7).1 0 (by decide)
  exact ⟨h.2.1 (by decide), h.2.2 (by decide)⟩

/-- C7 — String-read underflow atomicity: on a well-formed buffer,
`cBuffer_read_string` returns `CBUFFER_FAIL` leaving buffer and destination
untouched when fewer than `str_length` bytes are stored; otherwise it
returns `CBUFFER_SUCCESS`, the destination cells `0 .. str_length - 1`
receive the first `str_length` logical bytes in order, cell `str_length`
receives a `0` terminator, every higher cell is untouched, and exactly
`str_length` bytes have been popped from the buffer. -/
theorem read_string_underflow_atomic (b : CBuffer) (n : Nat) (dest : Nat → Nat)
    (h : WF b) :
    (cBuffer_get_usedSpace b < n →
      cBuffer_read_string b n dest = (b, dest, CBUFFER_FAIL)) ∧
    (n ≤ cBuffer_get_usedSpace b →
      (cBuffer_read_string b n dest).2.2 = CBUFFER_SUCCESS ∧
      (∀ k, k < n → (cBuffer_read_string b n dest).2.1 k = (contents b).getD k 0) ∧
      (cBuffer_read_string b n dest).2.1 n = 0 ∧
      (∀ j, n < j → (cBuffer_read_string b n dest).2.1 j = dest j) ∧
      WF (cBuffer_read_string b n dest).1 ∧
      (cBuffer_read_string b n dest).1.rear = b.rear ∧
      contents (cBuffer_read_string b n dest).1 = (contents b).drop n) := by
  constructor
  · intro hlt
    simp [cBuffer_read_string, hlt]
  · intro hge
    have hng : ¬ (cBuffer_get_usedSpace b < n) := by omega
    obtain ⟨ihwf, ihre, ihdat, ihc, ihval, ihfr⟩ := readCharsInto_ok n b dest 0 h hge
    have hb' : cBuffer_read_string b n dest =
        ((readCharsInto b dest 0 n).1,
         fun j => if j = n then 0 else (readCharsInto b dest 0 n).2 j,
         CBUFFER_SUCCESS) := by
      simp [cBuffer_read_string, hng]
    rw [hb']
    refine ⟨rfl, ?_, by simp, ?_, ihwf, ihre, ihc⟩
    · intro k hk
      have hkn : ¬ (k = n) := by omega
      have := ihval k hk
      rw [Nat.zero_add] at this
      simp only [hkn, if_false]
      exact this
    · intro j hj
      have hjn : ¬ (j = n) := by omega
      have := ihfr j (by intro k hk; omega)
      simp only [hjn, if_false]
      exact this

theorem read_string_underflow_atomic_witness :
    cBuffer_read_string cBuffer_Init 1 (fun _ => 0) =
      (cBuffer_Init, (fun _ => 0), CBUFFER_FAIL) ∧
    (cBuffer_read_string (cBuffer_add_char cBuffer_Init 7).1 1 (fun _ => 0)).2.2 =
      CBUFFER_SUCCESS := by
  have h1 := (read_string_underflow_atomic cBuffer_Init 1 (fun _ => 0) (by decide)).1
    (by decide)
  have h2 := (read_string_underflow_atomic (cBuffer_add_char cBuffer_Init 7).1 1
    (fun _ => 0) (by decide)).2 (by decide)
  exact ⟨h1, h2.1⟩

/-- C8 — Unreachable status value: none of the public operations ever
returns `CBUFFER_INVALID_STRING`, for any buffer state and any arguments. -/
theorem no_invalid_string_status :
    (∀ b d, (cBuffer_add_char b d).2 ≠ CBUFFER_INVALID_STRING) ∧
    (∀ b, (cBuffer_read_char b).2.2 ≠ CBUFFER_INVALID_STRING) ∧
    (∀ b s, (cBuffer_add_string b s).2 ≠ CBUFFER_INVALID_STRING) ∧
    (∀ b n dest, (cBuffer_read_string b n dest).2.2 ≠ CBUFFER_INVALID_STRING) ∧
    (∀ b i, (cBuffer_peek b i).2 ≠ CBUFFER_INVALID_STRING) := by
  refine ⟨?_, ?_, ?_, ?_, ?_⟩
  · intro b d
    unfold cBuffer_add_char
    split <;> simp
  · intro b
    unfold cBuffer_read_char
    split <;> simp
  · intro b s
    simp only [cBuffer_add_string]
    split <;> simp
  · intro b n dest
    simp only [cBuffer_read_string]
    split <;> simp
  · intro b i
    simp only [cBuffer_peek]
    split <;> simp

/-- C9 — Zero-length string read: on any buffer state, `cBuffer_read_string`
with `str_length = 0` returns `CBUFFER_SUCCESS`, writes only a `0`
terminator at destination index `0`, and leaves the buffer unchanged. -/
theorem read_string_zero (b : CBuffer) (dest : Nat → Nat) :
    cBuffer_read_string b 0 dest =
      (b, fun j => if j = 0 then 0 else dest j, CBUFFER_SUCCESS) := by
  simp [cBuffer_read_string, readCharsInto]

/-- C10 — Single-byte write frame: when `cBuffer_add_char` succeeds, the new
state has `rear = (old rear + 1) % C_BUFFER_SIZE`, the byte stored at that
new `rear`, the same `front`, and every other data slot unchanged; when it
returns `CBUFFER_FULL` the state is entirely unchanged. -/
theorem add_char_frame (b : CBuffer) (d : Nat) :
    ((cBuffer_add_char b d).2 = CBUFFER_SUCCESS →
      (cBuffer_add_char b d).1.rear = (b.rear + 1) % C_BUFFER_SIZE ∧
      (cBuffer_add_char b d).1.front = b.front ∧
      (cBuffer_add_char b d).1.data ((b.rear + 1) % C_BUFFER_SIZE) = d ∧
      (∀ i, i ≠ (b.rear + 1) % C_BUFFER_SIZE →
        (cBuffer_add_char b d).1.data i = b.data i)) ∧
    ((cBuffer_add_char b d).2 = CBUFFER_FULL → (cBuffer_add_char b d).1 = b) := by
  by_cases hc : (b.rear + 1) % C_BUFFER_SIZE = b.front
  · constructor
    · intro hs
      exfalso
      simp [cBuffer_add_char, hc] at hs
    · intro _
      simp [cBuffer_add_char, hc]
  · constructor
    · intro _
      refine ⟨by simp [cBuffer_add_char, hc], by simp [cBuffer_add_char, hc],
        by simp [cBuffer_add_char, hc], ?_⟩
      intro i hi
      simp [cBuffer_add_char, hc, hi]
    · intro hs
      exfalso
      simp [cBuffer_add_char, hc] at hs

theorem add_char_frame_witness :
    ((cBuffer_add_char cBuffer_Init 7).1.rear = (cBuffer_Init.rear + 1) % C_BUFFER_SIZE ∧
     (cBuffer_add_char cBuffer_Init 7).1.front = cBuffer_Init.front ∧
     (cBuffer_add_char cBuffer_Init 7).1.data ((cBuffer_Init.rear + 1) % C_BUFFER_SIZE) = 7 ∧
     (cBuffer_add_char cBuffer_Init 7).1.data 5 = cBuffer_Init.data 5) ∧
    (cBuffer_add_char { data := fun _ => 0, front := 0, rear := 49 } 3).1 =
      { data := fun _ => 0, front := 0, rear := 49 } := by
  have h1 := (add_char_frame cBuffer_Init 7).1 (by decide)
  have h2 := (add_char_frame { data := fun _ => 0, front := 0, rear := 49 } 3).2 (by decide)
  exact ⟨⟨h1.1, h1.2.1, h1.2.2.1, h1.2.2.2 5 (by decide)⟩, h2⟩

end CircularBuffer
